import Mathlib

/-! Shallow embedding of the MyFi item-based collaborative-filtering engine,
from `myfi_backend/services/item_collaborative_filtering.py` and
`myfi_backend/services/per_book_collaborative_filtering.py`.

Modelling conventions:
* A Python `dict` is modelled as an insertion-ordered association list with
  replace-in-place insertion (`dinsert`); lookup returns the first binding
  (keys are unique by construction), `length` is the number of bindings.
* Python `float` rating and similarity values are modelled as `ℚ`.
* `scipy.sparse.csr_matrix((data, (rows, cols)))` is modelled by the list of
  `(row, col, value)` triples in append order; scipy sums duplicate
  coordinates, so the value of a cell is the sum of the triples at that
  coordinate (`cellValue`), and `nnz` counts distinct stored coordinates.
* `sklearn.metrics.pairwise.cosine_similarity` is modelled as an arbitrary
  row-pair kernel `k` passed as a parameter: its floating-point numeric
  content lies outside the rational embedding, and no claim settled below
  depends on the kernel's values.
* `numpy.argsort` (default sort kind) is modelled as the stable ascending
  sort, ties in ascending index order — the canonical deterministic
  refinement of its unspecified tie order.
-/

/-- Association-list model of a Python dict: insert replaces the value of an
existing key in place, otherwise appends the new binding at the end. -/
def dinsert {α : Type} (k : String) (v : α) : List (String × α) → List (String × α)
  | [] => [(k, v)]
  | (k', v') :: rest => if k' = k then (k, v) :: rest else (k', v') :: dinsert k v rest

/-- Dict lookup: first (unique) binding for the key, `none` if absent. -/
def dfind? {α : Type} (d : List (String × α)) (k : String) : Option α :=
  (d.find? (fun p => p.1 = k)).map Prod.snd

/-- Python `key in dict`. -/
def dmem {α : Type} (d : List (String × α)) (k : String) : Bool :=
  (dfind? d k).isSome

/-! String helpers for the identifier formats.  The Python code uses
`startswith('/works/')`, slicing `[7:]` (seven characters), f-string
concatenation, and the regexes `^OL\d+W$`, `(OL\d+W)` and
`\/works\/(OL\d+W)`.  We implement them over the character list `s.data`.
Python `\d` is modelled as an ASCII digit. -/

/-- The seven characters of the `/works/` prefix. -/
def worksChars : List Char := ['/', 'w', 'o', 'r', 'k', 's', '/']

/-- The `/works/` prefix as a string. -/
def worksStr : String := "/works/"

/-- Python `book_id.startswith('/works/')`. -/
def startsWithWorks (s : String) : Bool := worksChars.isPrefixOf s.data

/-- Python `book_id[7:]` (strip the `/works/` prefix). -/
def stripWorks (s : String) : String := ⟨s.data.drop 7⟩

/-- Python `f"/works/{book_id}"`. -/
def addWorks (s : String) : String := worksStr ++ s

/-- Full match of `^OL\d+W$` on a character list: `O`, `L`, one or more
digits, then a final `W`. -/
def isOLKeyChars (l : List Char) : Bool :=
  match l with
  | 'O' :: 'L' :: rest =>
    !(rest.takeWhile Char.isDigit).isEmpty && (rest.dropWhile Char.isDigit == ['W'])
  | _ => false

/-- Python `re.match(r'^OL\d+W$', s)` viewed as a Boolean (the pattern is
anchored at both ends, so match means full match). -/
def isOLKey (s : String) : Bool := isOLKeyChars s.data

/-- Try to match `OL\d+W` exactly at the head of the character list,
returning the matched key.  The `\d+` is greedy; since `W` is not a digit no
backtracking can succeed, so greedy take-while is exact. -/
def matchOLAt (l : List Char) : Option String :=
  match l with
  | 'O' :: 'L' :: rest =>
    let ds := rest.takeWhile Char.isDigit
    match rest.dropWhile Char.isDigit with
    | 'W' :: _ => if ds.isEmpty then none else some ⟨'O' :: 'L' :: (ds ++ ['W'])⟩
    | _ => none
  | _ => none

/-- Python `re.search(r'(OL\d+W)', s)`: leftmost match of the key pattern,
returning group 1 (the key itself). -/
def findOLKey : List Char → Option String
  | [] => none
  | c :: t =>
    match matchOLAt (c :: t) with
    | some k => some k
    | none => findOLKey t

/-- Python `'/works/' in s`. -/
def containsWorks : List Char → Bool
  | [] => false
  | c :: t => worksChars.isPrefixOf (c :: t) || containsWorks t

/-- Try to match `\/works\/(OL\d+W)` exactly at the head of the character
list, returning group 1. -/
def matchWorksOLAt (l : List Char) : Option String :=
  if worksChars.isPrefixOf l then matchOLAt (l.drop 7) else none

/-- Python `re.search(r'\/works\/(OL\d+W)', s)`: leftmost occurrence,
returning group 1 (the bare key). -/
def findWorksOLKey : List Char → Option String
  | [] => none
  | c :: t =>
    match matchWorksOLAt (c :: t) with
    | some k => some k
    | none => findWorksOLKey t

/-- One catalog document from the `test.books` collection as used by
`ItemBasedCF.__init__` (lines 40-61): `olId` is `str(book["_id"])` and
`bookId` is the optional `book["book_id"]` field. -/
structure OlBook where
  olId : String
  bookId : Option String
deriving DecidableEq, Repr

/-- Body of the `for book in ol_books` loop of `__init__` (lines 41-61),
threading the pair `(ol_to_sg_mapping, sg_to_ol_mapping)`. -/
def stepOlBook (ms : List (String × String) × List (String × String)) (b : OlBook) :
    List (String × String) × List (String × String) :=
  let m := dinsert b.olId b.olId ms.1
  let m :=
    if startsWithWorks b.olId then dinsert (stripWorks b.olId) b.olId m
    else if isOLKey b.olId then dinsert (addWorks b.olId) b.olId m
    else m
  match b.bookId with
  | some sg => (dinsert b.olId sg m, dinsert sg b.olId ms.2)
  | none => (m, ms.2)

/-- Body of the `for book in sg_books` loop of `__init__` (lines 65-84):
first the `'/works/' in sg_id` block with `re.search(r'\/works\/(OL\d+W)')`,
then unconditionally the `re.search(r'(OL\d+W)')` block. -/
def stepSgBook (ms : List (String × String) × List (String × String)) (sgId : String) :
    List (String × String) × List (String × String) :=
  let ms :=
    if containsWorks sgId.data then
      match findWorksOLKey sgId.data with
      | some olId =>
        (dinsert (addWorks olId) sgId (dinsert olId sgId ms.1),
         dinsert sgId (addWorks olId) ms.2)
      | none => ms
    else ms
  match findOLKey sgId.data with
  | some olId =>
    (dinsert (addWorks olId) sgId (dinsert olId sgId ms.1),
     dinsert sgId (addWorks olId) ms.2)
  | none => ms

/-- The identifier reconciliation tables `(ol_to_sg_mapping, sg_to_ol_mapping)`
built by `ItemBasedCF.__init__` lines 36-84 from the catalog documents and the
StoryGraph `book_id` values. -/
def buildMappings (olBooks : List OlBook) (sgBooks : List String) :
    List (String × String) × List (String × String) :=
  sgBooks.foldl stepSgBook (olBooks.foldl stepOlBook ([], []))

/-- `ItemBasedCF.normalize_book_id` (lines 135-154): try the id as-is, then
with the `/works/` prefix added (when bare-key-shaped), then with the prefix
stripped, and otherwise return the input unchanged. -/
def normalize_book_id (m : List (String × String)) (book_id : String) : String :=
  match dfind? m book_id with
  | some v => v
  | none =>
    match (if !startsWithWorks book_id && isOLKey book_id
           then dfind? m (addWorks book_id) else none) with
    | some v => v
    | none =>
      match (if startsWithWorks book_id then dfind? m (stripWorks book_id) else none) with
      | some v => v
      | none => book_id

/-! Rating matrix builder, `build_rating_matrix` (lines 194-277 of
`item_collaborative_filtering.py`; the identical loop appears at lines
187-275 of `per_book_collaborative_filtering.py`, which additionally caches
the result).  A rating entry of a user's `book_ratings` list is a dict with
optional `book_id` and `rating` fields; non-dict entries are skipped by the
`isinstance` guard exactly as a missing field is, so the model carries the
two optional fields. -/

/-- One element of a user's `book_ratings` list. -/
structure RatingItem where
  book_id : Option String
  rating : Option ℚ
deriving DecidableEq, Repr

/-- The inner `for rating_item in book_ratings` loop (lines 235-252): the
`(column, value)` pairs appended for one user, in order.  Python appends the
triple `(float(rating), user_idx, book_index)` to three parallel arrays; the
shared `user_idx` is attached by the caller. -/
def resolvedPairs (idx : List (String × ℕ)) : List RatingItem → List (ℕ × ℚ)
  | [] => []
  | it :: rest =>
    match it.book_id, it.rating with
    | some b, some r =>
      match dfind? idx b with
      | some col => (col, r) :: resolvedPairs idx rest
      | none => resolvedPairs idx rest
    | _, _ => resolvedPairs idx rest

/-- The outer `for user in user_cursor` loop (lines 226-260), threading
`user_count` (`uc`): a user contributes triples with row index equal to the
current `user_count`, which is incremented only when the user produced at
least one resolvable rating (`has_ratings`).  Returns the accumulated
`(row, col, value)` triples in append order and the final `user_count`. -/
def buildLoop (idx : List (String × ℕ)) (uc : ℕ) :
    List (List RatingItem) → List (ℕ × ℕ × ℚ) × ℕ
  | [] => ([], uc)
  | us :: rest =>
    let ps := resolvedPairs idx us
    if ps.isEmpty then buildLoop idx uc rest
    else
      let r := buildLoop idx (uc + 1) rest
      (ps.map (fun p => (uc, p.1, p.2)) ++ r.1, r.2)

/-- Result of `build_rating_matrix`: the sparse matrix as its coordinate
triples plus the counters and the declared shape
`(max(user_count, 1), len(book_id_to_index))` (lines 264-272). -/
structure BuildResult where
  triples : List (ℕ × ℕ × ℚ)
  userCount : ℕ
  ratingCount : ℕ
  nRows : ℕ
  nCols : ℕ
deriving DecidableEq, Repr

/-- `build_rating_matrix` over the item→column dict and the streamed users'
rating lists.  `rating_count` is incremented once per appended triple, so it
equals the number of triples. -/
def build_rating_matrix (idx : List (String × ℕ)) (users : List (List RatingItem)) :
    BuildResult :=
  let r := buildLoop idx 0 users
  { triples := r.1
    userCount := r.2
    ratingCount := r.1.length
    nRows := max r.2 1
    nCols := idx.length }

/-- Value of cell `(u, i)` of the csr matrix built from coordinate triples:
scipy sums duplicate coordinates, so the cell holds the sum of all triples at
that coordinate (zero when none). -/
def cellValue (ts : List (ℕ × ℕ × ℚ)) (u i : ℕ) : ℚ :=
  ((ts.filter (fun t => t.1 = u && t.2.1 = i)).map (fun t => t.2.2)).sum

/-- `matrix.nnz`: the number of stored entries of the csr matrix, i.e. the
number of distinct coordinates among the triples (scipy's duplicate summing
keeps an explicit entry even when values cancel). -/
def nnz (b : BuildResult) : ℕ :=
  ((b.triples.map (fun t => (t.1, t.2.1))).dedup).length

/-- The dense value view of the built rating matrix, row-major. -/
def toDense (b : BuildResult) : List (List ℚ) :=
  (List.range b.nRows).map (fun u => (List.range b.nCols).map (fun i => cellValue b.triples u i))

/-! Similarity engine, `compute_similarity` (lines 279-332, identical at
lines 277-330 of the per-book variant). -/

/-- `rating_matrix.mean(axis=1)` for one row: scipy's sparse mean divides the
row sum by the number of columns (`shape[1]`), counting the implicit zeros of
unrated items in the denominator. -/
def userMean (nCols : ℕ) (row : List ℚ) : ℚ := row.sum / (nCols : ℚ)

/-- The centering loop body (lines 300-304): the columns returned by
`rating_matrix[i].nonzero()` (the value-nonzero entries) get the user mean
subtracted; all other entries keep their (zero) value.  The guard
`len(user_ratings) > 0` only skips rows where the map below is the identity
anyway. -/
def centerRow (nCols : ℕ) (row : List ℚ) : List ℚ :=
  row.map (fun x => if x ≠ 0 then x - userMean nCols row else x)

/-- The centered matrix produced by lines 296-307. -/
def centerMatrix (nCols : ℕ) (m : List (List ℚ)) : List (List ℚ) :=
  m.map (centerRow nCols)

/-- `centered_matrix.T` (line 311) as a dense transpose of the declared
shape. -/
def transposeD (nRows nCols : ℕ) (m : List (List ℚ)) : List (List ℚ) :=
  (List.range nCols).map (fun i => (List.range nRows).map (fun u => (m.getD u []).getD i 0))

/-- `np.zeros((n, n))`. -/
def zeroMatrix (n : ℕ) : List (List ℚ) :=
  List.replicate n (List.replicate n 0)

/-- The batched similarity loop (lines 313-326): rows are processed in
batches of 500 against the full item matrix and the batch results are laid
down in order into the output.  `k` is the row-pair kernel modelling
`sklearn.metrics.pairwise.cosine_similarity`. -/
def batchLoop (k : List ℚ → List ℚ → ℚ) (all : List (List ℚ)) (items : List (List ℚ)) :
    List (List ℚ) :=
  if h : items = [] then []
  else
    ((items.take 500).map (fun v => all.map (fun w => k v w))) ++
      batchLoop k all (items.drop 500)
termination_by items.length
decreasing_by
  simp only [List.length_drop]
  have hpos : 0 < items.length := List.length_pos.mpr h
  omega

/-- Engine state of `ItemBasedCF` relevant to the similarity pipeline:
the item→column dict built in `__init__` (lines 95-99), the streamed users'
rating lists, and the `self.similarity_matrix` cache field (`None` after
`__init__`, line 129). -/
structure EngineState where
  book_id_to_index : List (String × ℕ)
  users : List (List RatingItem)
  similarity_matrix : Option (List (List ℚ))
deriving DecidableEq, Repr

/-- The similarity pipeline of lines 296-324 applied to a built rating
matrix. -/
def similarityOf (k : List ℚ → List ℚ → ℚ) (rm : BuildResult) : List (List ℚ) :=
  let centered := centerMatrix rm.nCols (toDense rm)
  let item := transposeD rm.nRows rm.nCols centered
  batchLoop k item item

/-- `ItemBasedCF.compute_similarity` (lines 279-332).  Returns the produced
matrix, the successor state, and whether the compute path ran (`False` only
on a cache hit).  On the cache-hit branch (lines 281-283) the cached matrix
is returned unchanged; when the freshly built rating matrix has no stored
entries (lines 292-294) an all-zero matrix is returned without assigning
`self.similarity_matrix`; otherwise the computed matrix is stored in the
cache (line 331) and returned. -/
def ItemBasedCF.compute_similarity (k : List ℚ → List ℚ → ℚ) (st : EngineState)
    (force_recompute : Bool) : List (List ℚ) × EngineState × Bool :=
  match st.similarity_matrix, force_recompute with
  | some m, false => (m, st, false)
  | _, _ =>
    let rm := build_rating_matrix st.book_id_to_index st.users
    if nnz rm = 0 then (zeroMatrix st.book_id_to_index.length, st, true)
    else
      let s := similarityOf k rm
      (s, { st with similarity_matrix := some s }, true)

/-- Engine state of `PerBookItemCF`: as `EngineState` plus the
`self.rating_matrix` cache (lines 121-122 of
`per_book_collaborative_filtering.py`). -/
structure PBEngineState where
  book_id_to_index : List (String × ℕ)
  users : List (List RatingItem)
  similarity_matrix : Option (List (List ℚ))
  rating_matrix : Option BuildResult
deriving DecidableEq, Repr

/-- Alias of the shared builder loop, referenced from inside
`PerBookItemCF.build_rating_matrix` (where the bare name would denote the
definition itself). -/
def buildFresh (idx : List (String × ℕ)) (users : List (List RatingItem)) : BuildResult :=
  build_rating_matrix idx users

/-- `PerBookItemCF.build_rating_matrix` (lines 187-275): identical builder,
but the result is cached in `self.rating_matrix` and reused. -/
def PerBookItemCF.build_rating_matrix (st : PBEngineState) : BuildResult × PBEngineState :=
  match st.rating_matrix with
  | some m => (m, st)
  | none =>
    let m := buildFresh st.book_id_to_index st.users
    (m, { st with rating_matrix := some m })

/-- `PerBookItemCF.compute_similarity` (lines 277-330): line-for-line the
same pipeline as `ItemBasedCF.compute_similarity`, except that the rating
matrix is obtained through the caching `build_rating_matrix`. -/
def PerBookItemCF.compute_similarity (k : List ℚ → List ℚ → ℚ) (st : PBEngineState)
    (force_recompute : Bool) : List (List ℚ) × PBEngineState × Bool :=
  match st.similarity_matrix, force_recompute with
  | some m, false => (m, st, false)
  | _, _ =>
    let br := PerBookItemCF.build_rating_matrix st
    let rm := br.1
    let st1 := br.2
    if nnz rm = 0 then (zeroMatrix st.book_id_to_index.length, st1, true)
    else
      let s := similarityOf k rm
      (s, { st1 with similarity_matrix := some s }, true)

/-! Recommendation retriever, `get_recommendations_for_user`
(lines 334-499).  After the seed books are resolved to matrix columns
(lines 348-372) the function works purely on the similarity matrix and the
list of seed column indices; we embed that core (lines 378-483).  Each
recommendation dict appended by the loop corresponds to exactly one matrix
column `idx` and carries `similarity_score = combined_similarity[idx]`; the
id/metadata fields are attached one-for-one per appended dict and affect
neither membership nor order, so a recommendation is modelled as the pair
`(idx, score)`. -/

/-- Lines 379-384: `combined_similarity` starts as
`np.zeros(similarity_matrix.shape[0])`, accumulates the row of every seed
index, and is divided by the number of seeds. -/
def combinedSimilarity (sim : List (List ℚ)) (indices : List ℕ) : List ℚ :=
  let summed := indices.foldl
    (fun acc idx => List.zipWith (· + ·) acc (sim.getD idx (List.replicate sim.length 0)))
    (List.replicate sim.length 0)
  summed.map (fun x => x / (indices.length : ℚ))

/-- The strict order of the stable ascending argsort on indices: smaller
key first, ties by smaller index first. -/
def ascIdxLt (key : ℕ → ℚ) (i j : ℕ) : Prop :=
  key i < key j ∨ (key i = key j ∧ i < j)

instance (key : ℕ → ℚ) (i j : ℕ) : Decidable (ascIdxLt key i j) := by
  unfold ascIdxLt
  infer_instance

/-- Insert index `i` into a list sorted by the strict lexicographic order
(key ascending, then index ascending). -/
def insertIdx (key : ℕ → ℚ) (i : ℕ) : List ℕ → List ℕ
  | [] => [i]
  | j :: rest =>
    if ascIdxLt key i j then i :: j :: rest
    else j :: insertIdx key i rest

/-- `combined_similarity.argsort()` (line 414), modelled as the stable
ascending sort of the index range: indices ordered by value, ties by
ascending index (numpy's default sort kind leaves the tie order
unspecified; this is its canonical deterministic refinement). -/
def argsortStable (combined : List ℚ) : List ℕ :=
  (List.range combined.length).foldl
    (fun acc i => insertIdx (fun j => combined.getD j 0) i acc) []

/-- The recommendation loop of lines 417-483 over the descending index order:
seed indices are skipped (line 421), candidates with
`combined_similarity[idx] < min_similarity` are skipped (line 425), every
other candidate appends one recommendation, and the loop breaks as soon as
`len(recommendations) >= n_recommendations` (line 482, checked after the
append). -/
def recLoop (key : ℕ → ℚ) (indices : List ℕ) (min_similarity : ℚ)
    (n_recommendations : ℕ) : List ℕ → List (ℕ × ℚ) → List (ℕ × ℚ)
  | [], acc => acc
  | i :: rest, acc =>
    if i ∈ indices then recLoop key indices min_similarity n_recommendations rest acc
    else if key i < min_similarity then
      recLoop key indices min_similarity n_recommendations rest acc
    else
      let acc2 := acc ++ [(i, key i)]
      if n_recommendations ≤ acc2.length then acc2
      else recLoop key indices min_similarity n_recommendations rest acc2

/-- The core of `get_recommendations_for_user` (lines 378-483) given the
similarity matrix and the resolved seed column indices: combined scores,
descending argsort (`argsort()[::-1]`, line 414), then the filtered,
capped collection loop. -/
def get_recommendations_core (sim : List (List ℚ)) (indices : List ℕ)
    (n_recommendations : ℕ) (min_similarity : ℚ) : List (ℕ × ℚ) :=
  let combined := combinedSimilarity sim indices
  recLoop (fun j => combined.getD j 0) indices min_similarity n_recommendations
    (argsortStable combined).reverse []

/-! Claim-side formalisations needed to state C1.  The spec sentence behind
C1 demands the mean over the non-zero entries only; these definitions follow
that sentence and exist solely to be compared with the source-derived
`userMean`/`centerMatrix` above. -/

/-- Formalisation of the C1/spec sentence "each user's mean rating over their
non-zero entries only": sum of the non-zero entries divided by their
count. -/
def claimNonzeroMean (row : List ℚ) : ℚ :=
  (row.filter (fun x => x ≠ 0)).sum / ((row.filter (fun x => x ≠ 0)).length : ℚ)

/-- Formalisation of the C1/spec centering: subtract the non-zero mean from
every non-zero entry, leave zero entries untouched. -/
def claimCenterMatrix (m : List (List ℚ)) : List (List ℚ) :=
  m.map (fun row => row.map (fun x => if x ≠ 0 then x - claimNonzeroMean row else x))

/-- The catalog dict of the C1 failing input: two items. -/
def c1Idx : List (String × ℕ) := [("b0", 0), ("b1", 1)]

/-- The user stream of the C1 failing input: one user who rates `b0` with 4
and leaves `b1` unrated. -/
def c1Users : List (List RatingItem) := [[⟨some "b0", some 4⟩]]

/-- C1, divergence at the failing input: the code's per-user mean is
`rating_matrix.mean(axis=1)`, the row sum divided by the number of catalog
items (including unrated zeros), giving 2 for a lone rating of 4 over two
items, so the centered entry is `4 - 2 = 2`; the claimed mean over the
non-zero entries only is 4, which would give a centered entry of 0.  The
claim's remaining part — only non-zero entries are centered, zero entries
stay zero — does hold (second column stays 0). -/
theorem c1_centering_divergence :
    userMean (build_rating_matrix c1Idx c1Users).nCols
        ((toDense (build_rating_matrix c1Idx c1Users)).getD 0 []) = 2 ∧
    claimNonzeroMean ((toDense (build_rating_matrix c1Idx c1Users)).getD 0 []) = 4 ∧
    centerMatrix (build_rating_matrix c1Idx c1Users).nCols
        (toDense (build_rating_matrix c1Idx c1Users)) = [[2, 0]] ∧
    claimCenterMatrix (toDense (build_rating_matrix c1Idx c1Users)) = [[0, 0]] := by
  have hd : toDense (build_rating_matrix c1Idx c1Users) = [[4, 0]] := by
    simp [toDense, build_rating_matrix, buildLoop, resolvedPairs, dfind?, c1Idx, c1Users,
      List.find?, cellValue, List.range_succ]
  have hc : (build_rating_matrix c1Idx c1Users).nCols = 2 := by
    simp [build_rating_matrix, buildLoop, resolvedPairs, dfind?, c1Idx, c1Users, List.find?]
  rw [hd, hc]
  norm_num [userMean, claimNonzeroMean, centerMatrix, centerRow, claimCenterMatrix]

/-- The catalog documents of the C2 failing input: a single book whose
OpenLibrary id is path-qualified and which carries a StoryGraph `book_id`. -/
def c2OlBooks : List OlBook := [⟨"/works/OL1W", some "sg1"⟩]

/-- The StoryGraph book ids of the C2 failing input ("sg1" embeds no `OLnW`
pattern, so the repair loop of lines 64-84 registers nothing for it). -/
def c2SgBooks : List String := ["sg1"]

/-- C2, divergence at the failing input: line 60 overwrites only the
original-form binding `ol_to_sg_mapping[ol_id] = sg_id` while the bare-key
alias written at line 51 keeps pointing at the OpenLibrary id, and
`normalize_book_id` does not chase chains — so the path-qualified form
resolves to the StoryGraph key "sg1" (a matrix column of
`book_id_to_index`) while the bare form resolves to "/works/OL1W" (no
matrix column).  The two textual forms of the same catalog entry therefore
resolve to different keys. -/
theorem c2_normalize_form_divergence :
    normalize_book_id (buildMappings c2OlBooks c2SgBooks).1 "/works/OL1W" = "sg1" ∧
    normalize_book_id (buildMappings c2OlBooks c2SgBooks).1 "OL1W" = "/works/OL1W" ∧
    normalize_book_id (buildMappings c2OlBooks c2SgBooks).1 "OL1W" ≠
      normalize_book_id (buildMappings c2OlBooks c2SgBooks).1 "/works/OL1W" := by
  decide

/-- If the builder appended no triple, the user counter never advanced. -/
theorem buildLoop_nil_userCount (idx : List (String × ℕ)) :
    ∀ (users : List (List RatingItem)) (uc : ℕ),
      (buildLoop idx uc users).1 = [] → (buildLoop idx uc users).2 = uc := by
  intro users
  induction users with
  | nil => intro uc _; rfl
  | cons us rest ih =>
    intro uc h
    by_cases hp : (resolvedPairs idx us).isEmpty
    · simp only [buildLoop, hp, if_true] at h ⊢
      exact ih uc h
    · simp only [buildLoop, hp, if_false, Bool.false_eq_true] at h
      rcases List.append_eq_nil.mp h with ⟨hmap, -⟩
      rw [List.map_eq_nil_iff] at hmap
      rw [hmap] at hp
      simp at hp

/-- The stored rating count of a built matrix is the number of its
coordinate triples. -/
theorem ratingCount_eq_length (idx : List (String × ℕ)) (users : List (List RatingItem)) :
    (build_rating_matrix idx users).ratingCount =
      (build_rating_matrix idx users).triples.length := rfl

/-- C6: with zero resolvable rating records, `build_rating_matrix` returns
the all-zero sparse matrix of shape `(max(1, user_count), n_items) = (1,
n_items)` instead of failing, and `compute_similarity` over that empty
matrix returns the all-zero `n_items × n_items` matrix. -/
theorem c6_empty_degradation (k : List ℚ → List ℚ → ℚ) (idx : List (String × ℕ))
    (users : List (List RatingItem))
    (h : (build_rating_matrix idx users).ratingCount = 0) :
    (build_rating_matrix idx users).nRows = 1 ∧
    (build_rating_matrix idx users).nCols = idx.length ∧
    (∀ u i, cellValue (build_rating_matrix idx users).triples u i = 0) ∧
    (ItemBasedCF.compute_similarity k ⟨idx, users, none⟩ false).1 = zeroMatrix idx.length := by
  have htr : (build_rating_matrix idx users).triples = [] := by
    rw [ratingCount_eq_length] at h
    exact List.length_eq_zero.mp h
  have huc : (build_rating_matrix idx users).userCount = 0 :=
    buildLoop_nil_userCount idx users 0 htr
  refine ⟨?_, rfl, ?_, ?_⟩
  · show max (buildLoop idx 0 users).2 1 = 1
    have h2 : (buildLoop idx 0 users).2 = 0 := huc
    rw [h2]
    rfl
  · intro u i
    rw [htr]
    simp [cellValue]
  · have hz : nnz (build_rating_matrix idx users) = 0 := by
      unfold nnz
      rw [htr]
      rfl
    simp [ItemBasedCF.compute_similarity, hz]

/-- C6 witness: one catalog item, no users. -/
theorem c6_empty_degradation_witness :
    (build_rating_matrix [("b", 0)] []).nRows = 1 ∧
    (build_rating_matrix [("b", 0)] []).nCols = 1 ∧
    cellValue (build_rating_matrix [("b", 0)] []).triples 0 0 = 0 ∧
    (ItemBasedCF.compute_similarity (fun _ _ => 0) ⟨[("b", 0)], [], none⟩ false).1 =
      zeroMatrix 1 := by
  obtain ⟨h1, h2, h3, h4⟩ :=
    c6_empty_degradation (fun _ _ => 0) [("b", 0)] [] (by decide)
  exact ⟨h1, by simpa using h2, h3 0 0, by simpa using h4⟩

/-- On an uncached engine whose built rating matrix has no stored entries,
one `compute_similarity(force_recompute=False)` call returns the all-zero
matrix and leaves the state untouched (shared helper for the C7 and C8
results). -/
theorem computeEmptyStep (k : List ℚ → List ℚ → ℚ) (idx : List (String × ℕ))
    (users : List (List RatingItem))
    (h : nnz (build_rating_matrix idx users) = 0) :
    ItemBasedCF.compute_similarity k ⟨idx, users, none⟩ false =
      (zeroMatrix idx.length, ⟨idx, users, none⟩, true) := by
  simp [ItemBasedCF.compute_similarity, h]

/-- C8: when the built rating matrix has zero stored entries and no cache
exists, `compute_similarity` returns the all-zero matrix through the early
return of lines 292-294, leaves the state — in particular the
`similarity_matrix` cache — unchanged (`None`), reports that the compute
path ran, and therefore a subsequent call with `force_recompute=False` runs
the compute path (rebuilds and recomputes) again. -/
theorem c8_empty_no_cache (k : List ℚ → List ℚ → ℚ) (idx : List (String × ℕ))
    (users : List (List RatingItem))
    (h : nnz (build_rating_matrix idx users) = 0) :
    ItemBasedCF.compute_similarity k ⟨idx, users, none⟩ false =
      (zeroMatrix idx.length, ⟨idx, users, none⟩, true) ∧
    (ItemBasedCF.compute_similarity k
        (ItemBasedCF.compute_similarity k ⟨idx, users, none⟩ false).2.1 false).2.2 = true := by
  refine ⟨computeEmptyStep k idx users h, ?_⟩
  rw [computeEmptyStep k idx users h]
  simp [ItemBasedCF.compute_similarity, h]

/-- C8 witness: one catalog item, no users. -/
theorem c8_empty_no_cache_witness :
    ItemBasedCF.compute_similarity (fun _ _ => 0) ⟨[("b", 0)], [], none⟩ false =
      (zeroMatrix 1, ⟨[("b", 0)], [], none⟩, true) ∧
    (ItemBasedCF.compute_similarity (fun _ _ => 0)
        (ItemBasedCF.compute_similarity (fun _ _ => 0)
          ⟨[("b", 0)], [], none⟩ false).2.1 false).2.2 = true := by
  obtain ⟨h1, h2⟩ := c8_empty_no_cache (fun _ _ => 0) [("b", 0)] [] (by decide)
  exact ⟨by simpa using h1, h2⟩

/-- C7, counterexample to the claim as stated: on an engine whose rating
data is empty (catalog of one item, no users) two successive
`compute_similarity(force_recompute=False)` calls return the same values,
but the second call does run the compute path again (it does not return a
cached result), because the empty-matrix early return never assigns the
cache. -/
theorem c7_recompute_counterexample :
    (ItemBasedCF.compute_similarity (fun _ _ => 0)
        (ItemBasedCF.compute_similarity (fun _ _ => 0)
          ⟨[("b", 0)], [], none⟩ false).2.1 false).2.2 = true ∧
    (ItemBasedCF.compute_similarity (fun _ _ => 0)
        (ItemBasedCF.compute_similarity (fun _ _ => 0)
          ⟨[("b", 0)], [], none⟩ false).2.1 false).1 =
      (ItemBasedCF.compute_similarity (fun _ _ => 0) ⟨[("b", 0)], [], none⟩ false).1 := by
  have h1 := computeEmptyStep (fun _ _ => 0) [("b", 0)] [] (by decide)
  constructor
  · rw [h1]
    simp [ItemBasedCF.compute_similarity, (by decide : nnz (build_rating_matrix [("b", 0)] []) = 0)]
  · rw [h1]
    simp [h1]

/-- C7 as amended: two successive `compute_similarity(force_recompute=False)`
calls always return identical matrix values; and whenever the first call
leaves a cached matrix (a cache already existed, or the built rating matrix
had at least one stored entry), the second call returns that cached result
without running the compute path. -/
theorem c7_memoization (k : List ℚ → List ℚ → ℚ) (st : EngineState) :
    (ItemBasedCF.compute_similarity k
        (ItemBasedCF.compute_similarity k st false).2.1 false).1 =
      (ItemBasedCF.compute_similarity k st false).1 ∧
    ((ItemBasedCF.compute_similarity k st false).2.1.similarity_matrix ≠ none →
      (ItemBasedCF.compute_similarity k
          (ItemBasedCF.compute_similarity k st false).2.1 false).2.2 = false) := by
  cases hc : st.similarity_matrix with
  | some m => simp [ItemBasedCF.compute_similarity, hc]
  | none =>
    by_cases hn : nnz (build_rating_matrix st.book_id_to_index st.users) = 0
    · simp [ItemBasedCF.compute_similarity, hc, hn]
    · simp [ItemBasedCF.compute_similarity, hc, hn]

/-- Concrete kernel for the C7 witness. -/
def k0w : List ℚ → List ℚ → ℚ := fun _ _ => 0

/-- Concrete non-empty engine state for the C7 witness: two catalog items,
one user rating both. -/
def st1w : EngineState :=
  ⟨[("b0", 0), ("b1", 1)], [[⟨some "b0", some 5⟩, ⟨some "b1", some 3⟩]], none⟩

/-- C7 witness: on a non-empty engine the first call caches and the second
call reports no recomputation. -/
theorem c7_memoization_witness :
    (ItemBasedCF.compute_similarity k0w st1w false).2.1.similarity_matrix ≠ none ∧
    (ItemBasedCF.compute_similarity k0w
        (ItemBasedCF.compute_similarity k0w st1w false).2.1 false).2.2 = false := by
  have hnnz : nnz (build_rating_matrix [("b0", 0), ("b1", 1)]
      [[⟨some "b0", some 5⟩, ⟨some "b1", some 3⟩]]) = 2 := by decide
  have hne : (ItemBasedCF.compute_similarity k0w st1w false).2.1.similarity_matrix ≠ none := by
    simp [ItemBasedCF.compute_similarity, st1w, hnnz]
  exact ⟨hne, (c7_memoization k0w st1w).2 hne⟩

/-- C10: on the same catalog dict and the same user rating stream, a fresh
`ItemBasedCF` engine and a fresh `PerBookItemCF` engine (both caches `None`
after `__init__`) compute equal similarity matrices, for either value of
`force_recompute`. -/
theorem c10_implementations_agree (k : List ℚ → List ℚ → ℚ) (idx : List (String × ℕ))
    (users : List (List RatingItem)) (force : Bool) :
    (ItemBasedCF.compute_similarity k ⟨idx, users, none⟩ force).1 =
    (PerBookItemCF.compute_similarity k ⟨idx, users, none, none⟩ force).1 := by
  cases force <;>
    by_cases hn : nnz (build_rating_matrix idx users) = 0 <;>
      simp [ItemBasedCF.compute_similarity, PerBookItemCF.compute_similarity,
        PerBookItemCF.build_rating_matrix, buildFresh, hn]

/-- Sum of the values of a user's resolved `(column, value)` pairs that hit
column `c` — what the claim says one cell should hold. -/
def colSum (ps : List (ℕ × ℚ)) (c : ℕ) : ℚ :=
  ((ps.filter (fun p => p.1 = c)).map Prod.snd).sum

/-- The matrix row assigned to the `u`-th streamed user: the number of
earlier users that contributed at least one resolvable rating (only those
advance `user_count`). -/
def rowOf (idx : List (String × ℕ)) (users : List (List RatingItem)) (u : ℕ) : ℕ :=
  ((users.take u).filter (fun us => !(resolvedPairs idx us).isEmpty)).length

/-- Cell values distribute over concatenation of triple lists. -/
theorem cellValue_append (a b : List (ℕ × ℕ × ℚ)) (u i : ℕ) :
    cellValue (a ++ b) u i = cellValue a u i + cellValue b u i := by
  simp [cellValue, List.filter_append]

/-- A triple list that never touches row `u` contributes nothing there. -/
theorem cellValue_eq_zero (ts : List (ℕ × ℕ × ℚ)) (u i : ℕ)
    (h : ∀ t ∈ ts, t.1 ≠ u) : cellValue ts u i = 0 := by
  have hf : ts.filter (fun t => t.1 = u && t.2.1 = i) = [] := by
    rw [List.filter_eq_nil_iff]
    intro t ht
    simp [h t ht]
  simp [cellValue, hf]

/-- One user's block of triples, all on row `r`, contributes exactly the
column sum of that user's resolved pairs. -/
theorem cellValue_map_same (ps : List (ℕ × ℚ)) (r c : ℕ) :
    cellValue (ps.map (fun p => (r, p.1, p.2))) r c = colSum ps c := by
  induction ps with
  | nil => rfl
  | cons p rest ih =>
    by_cases hp : p.1 = c
    · simp [cellValue, colSum, hp] at ih ⊢
      exact ih
    · simp [cellValue, colSum, hp] at ih ⊢
      exact ih

/-- Every triple produced from user counter `uc` onwards sits on row `uc` or
later. -/
theorem buildLoop_rows_ge (idx : List (String × ℕ)) :
    ∀ (users : List (List RatingItem)) (uc : ℕ) (t : ℕ × ℕ × ℚ),
      t ∈ (buildLoop idx uc users).1 → uc ≤ t.1 := by
  intro users
  induction users with
  | nil => intro uc t ht; simp [buildLoop] at ht
  | cons us rest ih =>
    intro uc t ht
    by_cases hp : (resolvedPairs idx us).isEmpty
    · simp only [buildLoop, hp, if_true] at ht
      exact ih uc t ht
    · simp only [buildLoop, hp, Bool.false_eq_true, if_false] at ht
      rcases List.mem_append.mp ht with h1 | h2
      · rcases List.mem_map.mp h1 with ⟨p, -, rfl⟩
        exact Nat.le_refl uc
      · exact Nat.le_of_succ_le (ih (uc + 1) t h2)

/-- Core accounting of the builder loop: the cell at the row assigned to the
`u`-th user holds exactly the column sum of that user's resolved rating
pairs. -/
theorem buildLoop_cell (idx : List (String × ℕ)) :
    ∀ (users : List (List RatingItem)) (u uc c : ℕ),
      u < users.length →
      (resolvedPairs idx (users.getD u [])).isEmpty = false →
      cellValue (buildLoop idx uc users).1
          (uc + ((users.take u).filter (fun us => !(resolvedPairs idx us).isEmpty)).length) c =
        colSum (resolvedPairs idx (users.getD u [])) c := by
  intro users
  induction users with
  | nil => intro u uc c hu; exact absurd hu (Nat.not_lt_zero u)
  | cons us rest ih =>
    intro u uc c hu hne
    cases u with
    | zero =>
      simp only [List.getD_cons_zero] at hne ⊢
      simp only [List.take_zero, List.filter_nil, List.length_nil, Nat.add_zero]
      simp only [buildLoop, hne, Bool.false_eq_true, if_false]
      rw [cellValue_append, cellValue_map_same]
      have hz : cellValue (buildLoop idx (uc + 1) rest).1 uc c = 0 := by
        apply cellValue_eq_zero
        intro t ht
        have := buildLoop_rows_ge idx rest (uc + 1) t ht
        omega
      rw [hz, add_zero]
    | succ u' =>
      simp only [List.getD_cons_succ] at hne ⊢
      simp only [List.take_succ_cons, List.filter_cons]
      by_cases hp : (resolvedPairs idx us).isEmpty
      · simp only [hp, Bool.not_true, Bool.false_eq_true, if_false]
        simp only [buildLoop, hp, if_true]
        exact ih u' uc c (Nat.lt_of_succ_lt_succ hu) hne
      · have hp' : (resolvedPairs idx us).isEmpty = false := Bool.eq_false_iff.mpr hp
        simp only [hp', Bool.not_false, if_true, List.length_cons]
        simp only [buildLoop, hp', Bool.false_eq_true, if_false]
        rw [cellValue_append]
        have hz : cellValue (resolvedPairs idx us |>.map (fun p => (uc, p.1, p.2)))
            (uc + (((rest.take u').filter
              (fun us => !(resolvedPairs idx us).isEmpty)).length + 1)) c = 0 := by
          apply cellValue_eq_zero
          intro t ht
          rcases List.mem_map.mp ht with ⟨p, -, rfl⟩
          omega
        rw [hz, zero_add]
        have harith : uc + (((rest.take u').filter
            (fun us => !(resolvedPairs idx us).isEmpty)).length + 1) =
            (uc + 1) + ((rest.take u').filter
              (fun us => !(resolvedPairs idx us).isEmpty)).length := by omega
        rw [harith]
        exact ih u' (uc + 1) c (Nat.lt_of_succ_lt_succ hu) hne

/-- C9: when one user's rating list holds several records that resolve to
the same matrix column, the built matrix cell stores the sum of those rating
values (scipy's coordinate-duplicate summing), not the last value alone:
in general the cell at the user's row and column `c` equals the sum of all
of that user's resolved rating values for column `c`. -/
theorem c9_duplicate_ratings_summed (idx : List (String × ℕ))
    (users : List (List RatingItem)) (u c : ℕ) (hu : u < users.length)
    (hne : (resolvedPairs idx (users.getD u [])).isEmpty = false) :
    cellValue (build_rating_matrix idx users).triples (rowOf idx users u) c =
      colSum (resolvedPairs idx (users.getD u [])) c := by
  have h := buildLoop_cell idx users u 0 c hu hne
  simpa [build_rating_matrix, rowOf] using h

/-- C9 witness: one catalog item `b`; one user with two records for `b`
(ratings 2 and 3); the stored cell is the sum 5, not the last value 3. -/
theorem c9_duplicate_ratings_summed_witness :
    cellValue (build_rating_matrix [("b", 0)]
        [[⟨some "b", some 2⟩, ⟨some "b", some 3⟩]]).triples
      (rowOf [("b", 0)] [[⟨some "b", some 2⟩, ⟨some "b", some 3⟩]] 0) 0 = 5 ∧
    (5 : ℚ) ≠ 3 := by
  have h := c9_duplicate_ratings_summed [("b", 0)]
    [[⟨some "b", some 2⟩, ⟨some "b", some 3⟩]] 0 0 (by decide) (by decide)
  refine ⟨h.trans ?_, by norm_num⟩
  norm_num [colSum, resolvedPairs, dfind?, List.find?]

/-- The argsort order is transitive. -/
theorem ascIdxLt_trans (key : ℕ → ℚ) {i j l : ℕ}
    (h1 : ascIdxLt key i j) (h2 : ascIdxLt key j l) : ascIdxLt key i l := by
  rcases h1 with h1 | ⟨he1, hi1⟩ <;> rcases h2 with h2 | ⟨he2, hi2⟩
  · exact Or.inl (lt_trans h1 h2)
  · exact Or.inl (he2 ▸ h1)
  · exact Or.inl (he1 ▸ h2)
  · exact Or.inr ⟨he1.trans he2, Nat.lt_trans hi1 hi2⟩

/-- The argsort order is total on distinct indices. -/
theorem ascIdxLt_of_not (key : ℕ → ℚ) {i j : ℕ} (hne : j ≠ i)
    (h : ¬ ascIdxLt key i j) : ascIdxLt key j i := by
  unfold ascIdxLt at h ⊢
  push_neg at h
  rcases lt_trichotomy (key j) (key i) with hk | hk | hk
  · exact Or.inl hk
  · refine Or.inr ⟨hk, ?_⟩
    have := h.2 hk.symm
    omega
  · exact absurd hk (not_lt.mpr h.1)

/-- Membership through `insertIdx`. -/
theorem insertIdx_mem (key : ℕ → ℚ) (i : ℕ) :
    ∀ (l : List ℕ) (a : ℕ), a ∈ insertIdx key i l ↔ a = i ∨ a ∈ l := by
  intro l
  induction l with
  | nil => intro a; simp [insertIdx]
  | cons j rest ih =>
    intro a
    by_cases hc : ascIdxLt key i j
    · simp [insertIdx, hc]
    · simp only [insertIdx, hc, if_false, List.mem_cons, ih a]
      tauto

/-- Inserting a fresh index preserves sortedness. -/
theorem insertIdx_pairwise (key : ℕ → ℚ) (i : ℕ) :
    ∀ (l : List ℕ), l.Pairwise (ascIdxLt key) → (∀ j ∈ l, j ≠ i) →
      (insertIdx key i l).Pairwise (ascIdxLt key) := by
  intro l
  induction l with
  | nil => intro _ _; simp [insertIdx]
  | cons j rest ih =>
    intro hp hd
    rcases List.pairwise_cons.mp hp with ⟨hj, hrest⟩
    by_cases hc : ascIdxLt key i j
    · simp only [insertIdx, hc, if_true]
      refine List.pairwise_cons.mpr ⟨?_, hp⟩
      intro x hx
      rcases List.mem_cons.mp hx with rfl | hx
      · exact hc
      · exact ascIdxLt_trans key hc (hj x hx)
    · simp only [insertIdx, hc, if_false]
      refine List.pairwise_cons.mpr ⟨?_, ?_⟩
      · intro x hx
        rcases (insertIdx_mem key i rest x).mp hx with rfl | hx
        · exact ascIdxLt_of_not key (hd j (List.mem_cons_self j rest)) hc
        · exact hj x hx
      · exact ih hrest (fun x hx => hd x (List.mem_cons_of_mem j hx))

/-- Folding insertions of pairwise-fresh indices yields a sorted list whose
members are exactly the inserted ones plus the seed accumulator. -/
theorem foldl_insertIdx (key : ℕ → ℚ) :
    ∀ (xs acc : List ℕ), acc.Pairwise (ascIdxLt key) → xs.Nodup →
      (∀ x ∈ xs, x ∉ acc) →
      (xs.foldl (fun a i => insertIdx key i a) acc).Pairwise (ascIdxLt key) ∧
      (∀ a, a ∈ xs.foldl (fun a i => insertIdx key i a) acc ↔ a ∈ xs ∨ a ∈ acc) := by
  intro xs
  induction xs with
  | nil =>
    intro acc hacc _ _
    exact ⟨hacc, fun a => by simp⟩
  | cons x xs ih =>
    intro acc hacc hnd hdisj
    have hxacc : x ∉ acc := hdisj x (List.mem_cons_self x xs)
    have hacc' : (insertIdx key x acc).Pairwise (ascIdxLt key) :=
      insertIdx_pairwise key x acc hacc
        (fun j hj => fun he => hxacc (he ▸ hj))
    have hnd' : xs.Nodup := (List.nodup_cons.mp hnd).2
    have hxnotxs : x ∉ xs := (List.nodup_cons.mp hnd).1
    have hdisj' : ∀ y ∈ xs, y ∉ insertIdx key x acc := by
      intro y hy hmem
      rcases (insertIdx_mem key x acc y).mp hmem with rfl | hmem
      · exact hxnotxs hy
      · exact hdisj y (List.mem_cons_of_mem x hy) hmem
    obtain ⟨hpw, hmem⟩ := ih (insertIdx key x acc) hacc' hnd' hdisj'
    refine ⟨hpw, fun a => ?_⟩
    rw [List.foldl_cons] at *
    rw [hmem a, insertIdx_mem key x acc a]
    simp [List.mem_cons]
    tauto

/-- The stable argsort of `combined` is sorted by key ascending with ties in
ascending index order. -/
theorem argsortStable_pairwise (c : List ℚ) :
    (argsortStable c).Pairwise (ascIdxLt (fun j => c.getD j 0)) :=
  (foldl_insertIdx (fun j => c.getD j 0) (List.range c.length) []
    (List.Pairwise.nil) (List.nodup_range c.length) (by simp)).1

/-- The stable argsort of `combined` ranges over exactly the indices of
`combined`. -/
theorem argsortStable_mem (c : List ℚ) (j : ℕ) :
    j ∈ argsortStable c ↔ j < c.length := by
  have h := (foldl_insertIdx (fun j => c.getD j 0) (List.range c.length) []
    (List.Pairwise.nil) (List.nodup_range c.length) (by simp)).2 j
  unfold argsortStable
  rw [h]
  simp [List.mem_range]

/-- The accumulator survives into the result of the recommendation loop. -/
theorem recLoop_mem_acc (key : ℕ → ℚ) (indices : List ℕ) (m : ℚ) (n : ℕ) :
    ∀ (l : List ℕ) (acc : List (ℕ × ℚ)) (p : ℕ × ℚ), p ∈ acc →
      p ∈ recLoop key indices m n l acc := by
  intro l
  induction l with
  | nil => intro acc p hp; exact hp
  | cons i rest ih =>
    intro acc p hp
    simp only [recLoop]
    split_ifs with h1 h2 h3
    · exact ih acc p hp
    · exact ih acc p hp
    · exact List.mem_append_left _ hp
    · exact ih _ p (List.mem_append_left _ hp)

/-- Every element of the loop's result either was already in the
accumulator or is a freshly appended recommendation: a non-seed index with
score at least the floor, paired with its own combined score. -/
theorem recLoop_props (key : ℕ → ℚ) (indices : List ℕ) (m : ℚ) (n : ℕ) :
    ∀ (l : List ℕ) (acc : List (ℕ × ℚ)) (p : ℕ × ℚ),
      p ∈ recLoop key indices m n l acc →
      p ∈ acc ∨ (p.1 ∉ indices ∧ m ≤ p.2 ∧ p.2 = key p.1) := by
  intro l
  induction l with
  | nil => intro acc p hp; exact Or.inl hp
  | cons i rest ih =>
    intro acc p hp
    simp only [recLoop] at hp
    split_ifs at hp with h1 h2 h3
    · exact ih acc p hp
    · exact ih acc p hp
    · rcases List.mem_append.mp hp with hp | hp
      · exact Or.inl hp
      · rcases List.mem_singleton.mp hp with rfl
        exact Or.inr ⟨h1, le_of_not_lt h2, rfl⟩
    · rcases ih _ p hp with hp' | hp'
      · rcases List.mem_append.mp hp' with hp' | hp'
        · exact Or.inl hp'
        · rcases List.mem_singleton.mp hp' with rfl
          exact Or.inr ⟨h1, le_of_not_lt h2, rfl⟩
      · exact Or.inr hp'

/-- Completeness of the loop: a candidate of the scanned list that is
neither a seed nor below the floor either appears in the result or the
result already reached the requested size. -/
theorem recLoop_complete (key : ℕ → ℚ) (indices : List ℕ) (m : ℚ) (n : ℕ) :
    ∀ (l : List ℕ) (acc : List (ℕ × ℚ)) (j : ℕ),
      j ∈ l → j ∉ indices → ¬ (key j < m) →
      j ∈ (recLoop key indices m n l acc).map Prod.fst ∨
        n ≤ (recLoop key indices m n l acc).length := by
  intro l
  induction l with
  | nil => intro acc j hj; exact absurd hj (List.not_mem_nil j)
  | cons i rest ih =>
    intro acc j hj hjs hjm
    simp only [recLoop]
    split_ifs with h1 h2 h3
    · rcases List.mem_cons.mp hj with rfl | hj
      · exact absurd h1 hjs
      · exact ih acc j hj hjs hjm
    · rcases List.mem_cons.mp hj with rfl | hj
      · exact absurd h2 hjm
      · exact ih acc j hj hjs hjm
    · rcases List.mem_cons.mp hj with rfl | hj
      · refine Or.inl ?_
        rw [List.map_append]
        exact List.mem_append_right _ (by simp)
      · exact Or.inr h3
    · rcases List.mem_cons.mp hj with rfl | hj
      · refine Or.inl ?_
        have hmem : (j, key j) ∈ recLoop key indices m n rest (acc ++ [(j, key j)]) :=
          recLoop_mem_acc key indices m n rest _ _ (List.mem_append_right _ (by simp))
        exact List.mem_map.mpr ⟨(j, key j), hmem, rfl⟩
      · exact ih _ j hj hjs hjm

/-- The indices of the loop's result form a subsequence of the accumulator's
indices followed by the scanned candidate order. -/
theorem recLoop_map_sublist (key : ℕ → ℚ) (indices : List ℕ) (m : ℚ) (n : ℕ) :
    ∀ (l : List ℕ) (acc : List (ℕ × ℚ)),
      List.Sublist ((recLoop key indices m n l acc).map Prod.fst)
        (acc.map Prod.fst ++ l) := by
  intro l
  induction l with
  | nil => intro acc; simp [recLoop]
  | cons i rest ih =>
    intro acc
    simp only [recLoop]
    have hskip : List.Sublist ((recLoop key indices m n rest acc).map Prod.fst)
        (acc.map Prod.fst ++ i :: rest) := by
      refine (ih acc).trans (List.Sublist.append_left ?_ _)
      exact List.sublist_cons_self i rest
    split_ifs with h1 h2 h3
    · exact hskip
    · exact hskip
    · rw [List.map_append]
      refine List.Sublist.append_left ?_ _
      exact List.Sublist.cons₂ i (List.nil_sublist rest)
    · have h := ih (acc ++ [(i, key i)])
      rw [List.map_append] at h
      refine h.trans ?_
      rw [List.append_assoc]
      exact List.Sublist.refl _

/-- Unfolding equation of the retrieval core in terms of the loop. -/
theorem core_eq (sim : List (List ℚ)) (indices : List ℕ) (n_recommendations : ℕ)
    (min_similarity : ℚ) :
    get_recommendations_core sim indices n_recommendations min_similarity =
      recLoop (fun j => (combinedSimilarity sim indices).getD j 0) indices
        min_similarity n_recommendations
        ((argsortStable (combinedSimilarity sim indices)).reverse) [] := rfl

/-- C5: no recommendation returned by the retrieval core sits on a seed
column — seeds are skipped by the `idx in indices` check of line 421. -/
theorem c5_self_exclusion (sim : List (List ℚ)) (indices : List ℕ)
    (n_recommendations : ℕ) (min_similarity : ℚ) :
    ∀ p ∈ get_recommendations_core sim indices n_recommendations min_similarity,
      p.1 ∉ indices := by
  intro p hp
  rw [core_eq] at hp
  rcases recLoop_props _ _ _ _ _ [] p hp with h | h
  · simp at h
  · exact h.1

/-- C3 as amended: the returned recommendations are ranked by combined
score descending, and candidates with equal scores appear in descending
original-index order (the stable ascending argsort is reversed by
`[::-1]`). -/
theorem c3_ranking_descending (sim : List (List ℚ)) (indices : List ℕ)
    (n_recommendations : ℕ) (min_similarity : ℚ) :
    (get_recommendations_core sim indices n_recommendations min_similarity).Pairwise
      (fun a b => b.2 < a.2 ∨ (a.2 = b.2 ∧ b.1 < a.1)) := by
  rw [core_eq]
  have hsub := recLoop_map_sublist (fun j => (combinedSimilarity sim indices).getD j 0)
    indices min_similarity n_recommendations
    ((argsortStable (combinedSimilarity sim indices)).reverse) []
  simp only [List.map_nil, List.nil_append] at hsub
  have hrev : ((argsortStable (combinedSimilarity sim indices)).reverse).Pairwise
      (fun i j => ascIdxLt (fun x => (combinedSimilarity sim indices).getD x 0) j i) :=
    List.pairwise_reverse.mpr (argsortStable_pairwise (combinedSimilarity sim indices))
  have hmap := hrev.sublist hsub
  have hpw := List.pairwise_map.mp hmap
  refine List.Pairwise.imp_of_mem (fun {a b} ha hb hr => ?_) hpw
  rcases recLoop_props _ _ _ _ _ [] a ha with h | ha2
  · simp at h
  rcases recLoop_props _ _ _ _ _ [] b hb with h | hb2
  · simp at h
  rcases hr with h | ⟨he, hi⟩
  · exact Or.inl (by rw [ha2.2.2, hb2.2.2]; exact h)
  · exact Or.inr ⟨by rw [ha2.2.2, hb2.2.2]; exact he.symm, hi⟩

/-- C4 as amended: every returned recommendation carries a similarity score
at least `min_similarity`; and an item with a matrix column that is absent
from the output is a seed, or scores strictly below `min_similarity`, or the
output already holds `n_recommendations` entries (the top-N cap of line
482). -/
theorem c4_threshold_law (sim : List (List ℚ)) (indices : List ℕ)
    (n_recommendations : ℕ) (min_similarity : ℚ) :
    (∀ p ∈ get_recommendations_core sim indices n_recommendations min_similarity,
        min_similarity ≤ p.2) ∧
    (∀ j, j < (combinedSimilarity sim indices).length →
        j ∉ (get_recommendations_core sim indices n_recommendations
          min_similarity).map Prod.fst →
        j ∈ indices ∨
          (combinedSimilarity sim indices).getD j 0 < min_similarity ∨
          n_recommendations ≤ (get_recommendations_core sim indices n_recommendations
            min_similarity).length) := by
  constructor
  · intro p hp
    rw [core_eq] at hp
    rcases recLoop_props _ _ _ _ _ [] p hp with h | h
    · simp at h
    · exact h.2.1
  · intro j hj hnot
    by_cases hs : j ∈ indices
    · exact Or.inl hs
    by_cases hm : (combinedSimilarity sim indices).getD j 0 < min_similarity
    · exact Or.inr (Or.inl hm)
    refine Or.inr (Or.inr ?_)
    have hjmem : j ∈ (argsortStable (combinedSimilarity sim indices)).reverse := by
      rw [List.mem_reverse]
      exact (argsortStable_mem _ j).mpr hj
    rw [core_eq] at hnot ⊢
    rcases recLoop_complete (fun i => (combinedSimilarity sim indices).getD i 0) indices
      min_similarity n_recommendations _ [] j hjmem hs hm with h | h
    · exact absurd h hnot
    · exact h

/-- Concrete three-item similarity matrix for the retrieval
counterexamples and witnesses: seeding item 0 gives combined scores
`[9, 4, 4]`, a tie between items 1 and 2. -/
def m3cex : List (List ℚ) := [[9, 4, 4], [4, 9, 0], [4, 0, 9]]

/-- Combined scores of the concrete example. -/
theorem m3cex_comb : combinedSimilarity m3cex [0] = [9, 4, 4] := by
  norm_num [combinedSimilarity, m3cex, List.replicate]

/-- Output of the retrieval core on the concrete example with a cap of 6. -/
theorem m3cex_out6 : get_recommendations_core m3cex [0] 6 0 = [(2, 4), (1, 4)] := by
  norm_num [get_recommendations_core, combinedSimilarity, m3cex, argsortStable,
    insertIdx, ascIdxLt, List.range_succ, recLoop, List.replicate]

/-- Output of the retrieval core on the concrete example with a cap of 1. -/
theorem m3cex_out1 : get_recommendations_core m3cex [0] 1 0 = [(2, 4)] := by
  norm_num [get_recommendations_core, combinedSimilarity, m3cex, argsortStable,
    insertIdx, ascIdxLt, List.range_succ, recLoop, List.replicate]

/-- C3, counterexample to the claim as stated: with seed item 0 and items 1
and 2 tied at combined score 4, the output lists item 2 before item 1 —
equal-score candidates appear in descending, not ascending (original),
index order, because `argsort()[::-1]` reverses the ascending tie order
(and numpy's default quicksort guarantees no tie order at all). -/
theorem c3_tie_order_counterexample :
    ¬ (get_recommendations_core m3cex [0] 6 0).Pairwise
        (fun a b : ℕ × ℚ => b.2 < a.2 ∨ (a.2 = b.2 ∧ a.1 < b.1)) := by
  rw [m3cex_out6]
  intro h
  have h21 := (List.pairwise_cons.mp h).1 (1, 4) (by simp)
  rcases h21 with h1 | ⟨-, h2⟩
  · exact absurd h1 (by norm_num)
  · exact absurd h2 (by norm_num)

/-- C4, counterexample to the claim as stated: with `n_recommendations = 1`
item 1 is absent from the output even though it is not a seed and its
combined score 4 is not below the floor 0 — the top-N cap also excludes
items, which the claim does not allow for. -/
theorem c4_cap_counterexample :
    ¬ (∀ j, j < (combinedSimilarity m3cex [0]).length →
        j ∉ (get_recommendations_core m3cex [0] 1 0).map Prod.fst →
        j ∈ ([0] : List ℕ) ∨ (combinedSimilarity m3cex [0]).getD j 0 < 0) := by
  intro h
  have h1 := h 1 (by rw [m3cex_comb]; norm_num) (by rw [m3cex_out1]; simp)
  rcases h1 with h1 | h1
  · simp at h1
  · rw [m3cex_comb] at h1
    norm_num at h1

/-- C4 witness at the concrete example: the returned entries respect the
floor, and the absent non-seed item 1 falls under the top-N-cap disjunct. -/
theorem c4_threshold_law_witness :
    (∀ p ∈ get_recommendations_core m3cex [0] 6 0, (0 : ℚ) ≤ p.2) ∧
    (1 ∈ ([0] : List ℕ) ∨ (combinedSimilarity m3cex [0]).getD 1 0 < 0 ∨
      1 ≤ (get_recommendations_core m3cex [0] 1 0).length) :=
  ⟨(c4_threshold_law m3cex [0] 6 0).1,
   (c4_threshold_law m3cex [0] 1 0).2 1 (by rw [m3cex_comb]; norm_num)
     (by rw [m3cex_out1]; simp)⟩

/-- C5 witness at the concrete example: the returned entry `(2, 4)` is not a
seed. -/
theorem c5_self_exclusion_witness :
    (2, (4 : ℚ)) ∈ get_recommendations_core m3cex [0] 6 0 ∧ (2 : ℕ) ∉ ([0] : List ℕ) :=
  ⟨by rw [m3cex_out6]; simp,
   c5_self_exclusion m3cex [0] 6 0 (2, 4) (by rw [m3cex_out6]; simp)⟩
